import Mathlib

/-!
Shallow embedding of the OptiPrice pricing-and-analysis engine
(`src/backend/models/black_scholes.py`, `binomial_tree.py`, `monte_carlo.py`,
`src/backend/utils/analyzer.py`) together with theorems settling the frozen
claims about it.

Modelling conventions:
* Python floats are modelled by real numbers (`ℝ`); the standalone payoff
  calculator, which only uses field operations and `max`, is modelled over `ℚ`
  so that concrete instances can be decided.
* `numpy.log`, `numpy.exp`, `numpy.sqrt` are modelled by `Real.log`,
  `Real.exp`, `Real.sqrt`; `scipy.stats.norm.pdf` / `.cdf` by the mathematical
  standard-normal density and cumulative distribution function.
* Functions that can raise (`ValueError` in the source) return
  `Except PricingError _`; functions that cannot raise are total.
* `numpy.random` is a process-wide global generator.  It is modelled by an
  explicit state `GlobalRng` (current seed and position in the stream) that is
  threaded through every operation that touches it, together with an arbitrary
  value table `draw : ℕ → ℕ → ℝ` giving the standard-normal draw produced at a
  given seed and stream position.
-/

namespace OptiPrice

/-- Python's `str.lower()`, modelled character-by-character so that concrete
instances reduce in the kernel. -/
def strLower (s : String) : String := ⟨s.data.map Char.toLower⟩

/-- Kind of synchronous failure an engine operation can raise
(`ValueError` in the source). -/
inductive PricingError where
  | invalidParameter
  deriving DecidableEq

/-- Value of an `Except` result, defaulting to `0` on an error.  Glue used only
to state theorems about results that are proven to be `.ok`. -/
def priceOf (e : Except PricingError ℝ) : ℝ :=
  e.toOption.getD 0

@[simp] theorem priceOf_ok (x : ℝ) : priceOf (Except.ok x) = x := rfl

/-- Whether an `Except` result is a success.  Glue used only to state
theorems. -/
def isOkE (e : Except PricingError ℝ) : Bool :=
  match e with
  | Except.ok _ => true
  | Except.error _ => false

@[simp] theorem isOkE_ok (x : ℝ) : isOkE (Except.ok x) = true := rfl

/-- Standard normal probability density function, modelling
`scipy.stats.norm.pdf`. -/
noncomputable def normPdf (x : ℝ) : ℝ :=
  (Real.sqrt (2 * Real.pi))⁻¹ * Real.exp (-(1/2) * x ^ 2)

/-- Standard normal cumulative distribution function, modelling
`scipy.stats.norm.cdf`. -/
noncomputable def normCdf (x : ℝ) : ℝ :=
  ∫ t in Set.Iic x, normPdf t

theorem normPdf_pos (x : ℝ) : 0 < normPdf x := by
  have h2pi : 0 < 2 * Real.pi := by positivity
  have := Real.exp_pos (-(1/2) * x ^ 2)
  have hs : 0 < Real.sqrt (2 * Real.pi) := Real.sqrt_pos.mpr h2pi
  exact mul_pos (inv_pos.mpr hs) this

theorem normPdf_even (x : ℝ) : normPdf (-x) = normPdf x := by
  simp [normPdf, neg_pow]

theorem integrable_normPdf : MeasureTheory.Integrable normPdf := by
  have h : MeasureTheory.Integrable fun x : ℝ => Real.exp (-(1/2 : ℝ) * x ^ 2) :=
    integrable_exp_neg_mul_sq (by norm_num)
  simpa only [normPdf] using h.const_mul (Real.sqrt (2 * Real.pi))⁻¹

theorem integral_normPdf : ∫ x : ℝ, normPdf x = 1 := by
  have hg : ∫ x : ℝ, Real.exp (-(1/2 : ℝ) * x ^ 2) = Real.sqrt (Real.pi / (1/2)) :=
    integral_gaussian (1/2)
  have hpi : Real.pi / (1/2 : ℝ) = 2 * Real.pi := by ring
  have hs : Real.sqrt (2 * Real.pi) ≠ 0 := by
    have : 0 < 2 * Real.pi := by positivity
    exact ne_of_gt (Real.sqrt_pos.mpr this)
  calc ∫ x : ℝ, normPdf x
      = (Real.sqrt (2 * Real.pi))⁻¹ * ∫ x : ℝ, Real.exp (-(1/2 : ℝ) * x ^ 2) := by
        simp [normPdf, MeasureTheory.integral_mul_left]
    _ = (Real.sqrt (2 * Real.pi))⁻¹ * Real.sqrt (2 * Real.pi) := by rw [hg, hpi]
    _ = 1 := inv_mul_cancel₀ hs

theorem normCdf_add_neg (x : ℝ) : normCdf x + normCdf (-x) = 1 := by
  have hneg : normCdf (-x) = ∫ t in Set.Ioi x, normPdf t := by
    have h1 : (∫ t in Set.Iic (-x), normPdf (-t)) = ∫ t in Set.Ioi x, normPdf t := by
      simpa using integral_comp_neg_Iic (-x) normPdf
    have h2 : (∫ t in Set.Iic (-x), normPdf t) = ∫ t in Set.Iic (-x), normPdf (-t) := by
      simp [normPdf_even]
    rw [normCdf, h2, h1]
  have hsplit : (∫ t in Set.Iic x, normPdf t) + ∫ t in Set.Ioi x, normPdf t
      = ∫ t : ℝ, normPdf t := by
    have := MeasureTheory.integral_add_compl (measurableSet_Iic (a := x))
      integrable_normPdf
    simpa [Set.compl_Iic] using this
  rw [normCdf, hneg, hsplit, integral_normPdf]

theorem normCdf_nonneg (x : ℝ) : 0 ≤ normCdf x := by
  refine MeasureTheory.setIntegral_nonneg measurableSet_Iic fun t _ => ?_
  exact le_of_lt (normPdf_pos t)

/-! ## Black-Scholes engine (`src/backend/models/black_scholes.py`) -/

/-- State stored by `BlackScholesModel.__init__`. -/
structure BlackScholesModel where
  S : ℝ
  K : ℝ
  T : ℝ
  r : ℝ
  sigma : ℝ
  option_type : String

/-- `BlackScholesModel.__init__`: stores the parameters, lower-casing the
option kind.  The constructor performs no range validation and cannot fail. -/
def mkBlackScholes (S K T r sigma : ℝ) (option_type : String := "call") :
    BlackScholesModel :=
  ⟨S, K, T, r, sigma, strLower option_type⟩

/-- First component of `BlackScholesModel._calculate_d1_d2`. -/
noncomputable def BlackScholesModel.d1 (m : BlackScholesModel) : ℝ :=
  (Real.log (m.S / m.K) + (m.r + 0.5 * m.sigma ^ 2) * m.T) /
    (m.sigma * Real.sqrt m.T)

/-- Second component of `BlackScholesModel._calculate_d1_d2`. -/
noncomputable def BlackScholesModel.d2 (m : BlackScholesModel) : ℝ :=
  m.d1 - m.sigma * Real.sqrt m.T

/-- `BlackScholesModel.price`: branches on the stored option kind and raises
`ValueError` for kinds other than `call` / `put`. -/
noncomputable def BlackScholesModel.price (m : BlackScholesModel) :
    Except PricingError ℝ :=
  if m.option_type = "call" then
    Except.ok (m.S * normCdf m.d1 - m.K * Real.exp (-m.r * m.T) * normCdf m.d2)
  else if m.option_type = "put" then
    Except.ok (m.K * Real.exp (-m.r * m.T) * normCdf (-m.d2) -
      m.S * normCdf (-m.d1))
  else
    Except.error PricingError.invalidParameter

/-- `BlackScholesModel.delta`: the `else` branch covers every kind other than
`call`, so no kind validation happens here. -/
noncomputable def BlackScholesModel.delta (m : BlackScholesModel) : ℝ :=
  if m.option_type = "call" then normCdf m.d1 else normCdf m.d1 - 1

/-- `BlackScholesModel.gamma`: identical for every option kind. -/
noncomputable def BlackScholesModel.gamma (m : BlackScholesModel) : ℝ :=
  normPdf m.d1 / (m.S * m.sigma * Real.sqrt m.T)

/-- `BlackScholesModel.vega`: identical for every option kind, reported scaled
by `1/100`. -/
noncomputable def BlackScholesModel.vega (m : BlackScholesModel) : ℝ :=
  m.S * normPdf m.d1 * Real.sqrt m.T / 100

/-- `BlackScholesModel.theta`: the `else` branch covers every kind other than
`call`. -/
noncomputable def BlackScholesModel.theta (m : BlackScholesModel) : ℝ :=
  (if m.option_type = "call" then
    -m.S * normPdf m.d1 * m.sigma / (2 * Real.sqrt m.T) -
      m.r * m.K * Real.exp (-m.r * m.T) * normCdf m.d2
  else
    -m.S * normPdf m.d1 * m.sigma / (2 * Real.sqrt m.T) +
      m.r * m.K * Real.exp (-m.r * m.T) * normCdf (-m.d2)) / 365

/-- `BlackScholesModel.rho`: the `else` branch covers every kind other than
`call`. -/
noncomputable def BlackScholesModel.rho (m : BlackScholesModel) : ℝ :=
  if m.option_type = "call" then
    m.K * m.T * Real.exp (-m.r * m.T) * normCdf m.d2 / 100
  else
    -m.K * m.T * Real.exp (-m.r * m.T) * normCdf (-m.d2) / 100

/-- Result of `BlackScholesModel.greeks` (a dict in the source). -/
structure GreeksResult where
  delta : ℝ
  gamma : ℝ
  vega : ℝ
  theta : ℝ
  rho : ℝ

/-- `BlackScholesModel.greeks`: calls the five Greek computations, none of
which can fail. -/
noncomputable def BlackScholesModel.greeks (m : BlackScholesModel) :
    GreeksResult :=
  ⟨m.delta, m.gamma, m.vega, m.theta, m.rho⟩

theorem bs_price_call (S K T r sigma : ℝ) :
    (mkBlackScholes S K T r sigma "call").price =
      Except.ok ((mkBlackScholes S K T r sigma "call").S *
          normCdf (mkBlackScholes S K T r sigma "call").d1 -
        (mkBlackScholes S K T r sigma "call").K *
          Real.exp (-(mkBlackScholes S K T r sigma "call").r *
            (mkBlackScholes S K T r sigma "call").T) *
          normCdf (mkBlackScholes S K T r sigma "call").d2) := by
  have h : (mkBlackScholes S K T r sigma "call").option_type = "call" := by
    simp only [mkBlackScholes]
    decide
  rw [BlackScholesModel.price, if_pos h]

theorem bs_price_put (S K T r sigma : ℝ) :
    (mkBlackScholes S K T r sigma "put").price =
      Except.ok ((mkBlackScholes S K T r sigma "put").K *
          Real.exp (-(mkBlackScholes S K T r sigma "put").r *
            (mkBlackScholes S K T r sigma "put").T) *
          normCdf (-(mkBlackScholes S K T r sigma "put").d2) -
        (mkBlackScholes S K T r sigma "put").S *
          normCdf (-(mkBlackScholes S K T r sigma "put").d1)) := by
  have h1 : (mkBlackScholes S K T r sigma "put").option_type ≠ "call" := by
    simp only [mkBlackScholes]
    decide
  have h2 : (mkBlackScholes S K T r sigma "put").option_type = "put" := by
    simp only [mkBlackScholes]
    decide
  rw [BlackScholesModel.price, if_neg h1, if_pos h2]

/-- C4: for every valid contract, the Black-Scholes call and put prices both
succeed and `call − put = S − K·e^(−rT)` (put-call parity), exactly in the
real-number model of the floating-point computation. -/
theorem put_call_parity (S K T r sigma : ℝ)
    (hS : 0 < S) (hK : 0 < K) (hT : 0 < T) (hsigma : 0 < sigma) :
    (mkBlackScholes S K T r sigma "call").price =
      Except.ok (priceOf ((mkBlackScholes S K T r sigma "call").price))
    ∧ (mkBlackScholes S K T r sigma "put").price =
      Except.ok (priceOf ((mkBlackScholes S K T r sigma "put").price))
    ∧ priceOf ((mkBlackScholes S K T r sigma "call").price) -
        priceOf ((mkBlackScholes S K T r sigma "put").price) =
        S - K * Real.exp (-r * T) := by
  have hc := bs_price_call S K T r sigma
  have hp := bs_price_put S K T r sigma
  have hd1 : (mkBlackScholes S K T r sigma "put").d1 =
      (mkBlackScholes S K T r sigma "call").d1 := rfl
  have hd2 : (mkBlackScholes S K T r sigma "put").d2 =
      (mkBlackScholes S K T r sigma "call").d2 := rfl
  refine ⟨by rw [hc]; rfl, by rw [hp]; rfl, ?_⟩
  rw [hc, hp, hd1, hd2]
  simp only [priceOf_ok, mkBlackScholes]
  have h1 := normCdf_add_neg (mkBlackScholes S K T r sigma "call").d1
  have h2 := normCdf_add_neg (mkBlackScholes S K T r sigma "call").d2
  simp only [mkBlackScholes] at h1 h2
  linear_combination S * h1 - K * Real.exp (-r * T) * h2

theorem put_call_parity_witness :
    (0:ℝ) < 100 ∧
    priceOf ((mkBlackScholes (100:ℝ) 100 1 (1/20) (1/5) "call").price) -
        priceOf ((mkBlackScholes (100:ℝ) 100 1 (1/20) (1/5) "put").price) =
        100 - 100 * Real.exp (-(1/20) * 1) :=
  ⟨by norm_num,
    (put_call_parity 100 100 1 (1/20) (1/5) (by norm_num) (by norm_num)
      (by norm_num) (by norm_num)).2.2⟩

/-- C10: for every option kind other than `call` — including invalid kinds
such as `straddle` — the Black-Scholes delta, theta and rho return the
put-branch value and gamma its kind-independent value, all without any error;
only `price` rejects unknown kinds, so `greeks` succeeds on inputs whose
pricing fails. -/
theorem greeks_bypass_kind_check (S K T r sigma : ℝ) (kind : String)
    (hkc : strLower kind ≠ "call") :
    (mkBlackScholes S K T r sigma kind).delta =
      normCdf (mkBlackScholes S K T r sigma kind).d1 - 1
    ∧ (mkBlackScholes S K T r sigma kind).gamma =
      normPdf (mkBlackScholes S K T r sigma kind).d1 /
        (S * sigma * Real.sqrt T)
    ∧ (mkBlackScholes S K T r sigma kind).theta =
      (-S * normPdf (mkBlackScholes S K T r sigma kind).d1 * sigma /
          (2 * Real.sqrt T) +
        r * K * Real.exp (-r * T) *
          normCdf (-(mkBlackScholes S K T r sigma kind).d2)) / 365
    ∧ (mkBlackScholes S K T r sigma kind).rho =
      -K * T * Real.exp (-r * T) *
        normCdf (-(mkBlackScholes S K T r sigma kind).d2) / 100
    ∧ (mkBlackScholes S K T r sigma kind).greeks =
      ⟨(mkBlackScholes S K T r sigma kind).delta,
        (mkBlackScholes S K T r sigma kind).gamma,
        (mkBlackScholes S K T r sigma kind).vega,
        (mkBlackScholes S K T r sigma kind).theta,
        (mkBlackScholes S K T r sigma kind).rho⟩
    ∧ (strLower kind ≠ "put" →
        (mkBlackScholes S K T r sigma kind).price =
          Except.error PricingError.invalidParameter) := by
  have hk : (mkBlackScholes S K T r sigma kind).option_type ≠ "call" := hkc
  refine ⟨?_, rfl, ?_, ?_, rfl, ?_⟩
  · rw [BlackScholesModel.delta, if_neg hk]
  · rw [BlackScholesModel.theta, if_neg hk]
    rfl
  · rw [BlackScholesModel.rho, if_neg hk]
    rfl
  · intro hkp
    have hkp' : (mkBlackScholes S K T r sigma kind).option_type ≠ "put" := hkp
    rw [BlackScholesModel.price, if_neg hk, if_neg hkp']

theorem greeks_bypass_kind_check_witness :
    strLower "straddle" ≠ "call" ∧
    (mkBlackScholes (100:ℝ) 100 1 (1/20) (1/5) "straddle").price =
      Except.error PricingError.invalidParameter ∧
    (mkBlackScholes (100:ℝ) 100 1 (1/20) (1/5) "straddle").delta =
      normCdf (mkBlackScholes (100:ℝ) 100 1 (1/20) (1/5) "straddle").d1 - 1 :=
  ⟨by decide,
    (greeks_bypass_kind_check 100 100 1 (1/20) (1/5) "straddle"
      (by decide)).2.2.2.2.2 (by decide),
    (greeks_bypass_kind_check 100 100 1 (1/20) (1/5) "straddle"
      (by decide)).1⟩

/-! ## Binomial tree engine (`src/backend/models/binomial_tree.py`) -/

/-- State stored by `BinomialTreeModel.__init__` (the derived tree constants
`dt`, `u`, `d`, `p`, `discount` are stored at construction; they are modelled
as derived functions of the stored parameters below, which is equivalent
because the parameter fields are never mutated). -/
structure BinomialTreeModel where
  S : ℝ
  K : ℝ
  T : ℝ
  r : ℝ
  sigma : ℝ
  steps : ℕ
  option_type : String
  exercise : String

/-- `BinomialTreeModel.__init__`: stores the parameters, lower-casing the
option kind and exercise style.  No range validation. -/
def mkBinomialTree (S K T r sigma : ℝ) (steps : ℕ := 100)
    (option_type : String := "call") (exercise : String := "european") :
    BinomialTreeModel :=
  ⟨S, K, T, r, sigma, steps, strLower option_type, strLower exercise⟩

/-- `self.dt = T / steps`. -/
noncomputable def BinomialTreeModel.dt (m : BinomialTreeModel) : ℝ :=
  m.T / m.steps

/-- `self.u = np.exp(sigma * np.sqrt(self.dt))`. -/
noncomputable def BinomialTreeModel.u (m : BinomialTreeModel) : ℝ :=
  Real.exp (m.sigma * Real.sqrt m.dt)

/-- `self.d = 1 / self.u`. -/
noncomputable def BinomialTreeModel.d (m : BinomialTreeModel) : ℝ :=
  1 / m.u

/-- `self.p = (np.exp(r * self.dt) - self.d) / (self.u - self.d)`. -/
noncomputable def BinomialTreeModel.p (m : BinomialTreeModel) : ℝ :=
  (Real.exp (m.r * m.dt) - m.d) / (m.u - m.d)

/-- `self.discount = np.exp(-r * self.dt)`. -/
noncomputable def BinomialTreeModel.discount (m : BinomialTreeModel) : ℝ :=
  Real.exp (-m.r * m.dt)

/-- Entry `(j, i)` of `_build_stock_tree`: `S * u^(i-j) * d^j`. -/
noncomputable def BinomialTreeModel.stockPrice (m : BinomialTreeModel)
    (j i : ℕ) : ℝ :=
  m.S * m.u ^ (i - j) * m.d ^ j

/-- The backward-induction recursion of `BinomialTreeModel.price`, expressed
node-wise: `nodeValueGen discount p f am k j` is the option value at the node
`j` down-moves deep with `k` periods left to maturity, where `f k j` is the
exercise payoff at that node.  At `k = 0` it is the terminal payoff; otherwise
it is the discounted risk-neutral continuation value, replaced by
`max(continuation, payoff)` when early exercise (`am`) is enabled — exactly
the loop at lines 77-87 of the source. -/
noncomputable def nodeValueGen (discount p : ℝ) (f : ℕ → ℕ → ℝ) (am : Bool) :
    ℕ → ℕ → ℝ
  | 0, j => f 0 j
  | k+1, j =>
    let cont := discount * (p * nodeValueGen discount p f am k j +
      (1 - p) * nodeValueGen discount p f am k (j + 1))
    if am then max cont (f (k + 1) j) else cont

/-- `BinomialTreeModel._calculate_option_value`. -/
noncomputable def BinomialTreeModel.calcOptionValue (m : BinomialTreeModel)
    (stock_price : ℝ) : Except PricingError ℝ :=
  if m.option_type = "call" then Except.ok (max 0 (stock_price - m.K))
  else if m.option_type = "put" then Except.ok (max 0 (m.K - stock_price))
  else Except.error PricingError.invalidParameter

/-- Root value of the backward induction for a given per-node payoff
function. -/
noncomputable def BinomialTreeModel.priceCore (m : BinomialTreeModel)
    (payoff : ℝ → ℝ) : ℝ :=
  nodeValueGen m.discount m.p
    (fun k j => payoff (m.stockPrice j (m.steps - k)))
    (m.exercise == "american") m.steps 0

/-- `BinomialTreeModel.price`: the source raises `ValueError` from
`_calculate_option_value` inside the terminal-payoff loop when the option kind
is invalid; since that branch depends only on `option_type`, the check is
factored out here in front of the (then purely arithmetic) backward
induction. -/
noncomputable def BinomialTreeModel.price (m : BinomialTreeModel) :
    Except PricingError ℝ :=
  if m.option_type = "call" then
    Except.ok (m.priceCore (fun s => max 0 (s - m.K)))
  else if m.option_type = "put" then
    Except.ok (m.priceCore (fun s => max 0 (m.K - s)))
  else Except.error PricingError.invalidParameter

theorem nodeValueGen_false_le_true (discount p : ℝ) (hd : 0 ≤ discount)
    (hp0 : 0 ≤ p) (hp1 : p ≤ 1) (f : ℕ → ℕ → ℝ) :
    ∀ k j, nodeValueGen discount p f false k j ≤
      nodeValueGen discount p f true k j := by
  intro k
  induction k with
  | zero => intro j; exact le_refl _
  | succ k ih =>
    intro j
    have h1 := ih j
    have h2 := ih (j + 1)
    have h1p : 0 ≤ 1 - p := by linarith
    have hmono : discount * (p * nodeValueGen discount p f false k j +
        (1 - p) * nodeValueGen discount p f false k (j + 1)) ≤
        discount * (p * nodeValueGen discount p f true k j +
        (1 - p) * nodeValueGen discount p f true k (j + 1)) := by
      apply mul_le_mul_of_nonneg_left _ hd
      exact add_le_add (mul_le_mul_of_nonneg_left h1 hp0)
        (mul_le_mul_of_nonneg_left h2 h1p)
    calc nodeValueGen discount p f false (k + 1) j
        = discount * (p * nodeValueGen discount p f false k j +
            (1 - p) * nodeValueGen discount p f false k (j + 1)) := rfl
      _ ≤ discount * (p * nodeValueGen discount p f true k j +
            (1 - p) * nodeValueGen discount p f true k (j + 1)) := hmono
      _ ≤ max (discount * (p * nodeValueGen discount p f true k j +
            (1 - p) * nodeValueGen discount p f true k (j + 1)))
            (f (k + 1) j) := le_max_left _ _
      _ = nodeValueGen discount p f true (k + 1) j := rfl

/-- C6 (amended): for every valid put contract and step count `N ≥ 1` whose
derived risk-neutral probability `p` lies in `[0, 1]`, the American binomial
price is at least the European binomial price.  (Without the `p ∈ [0, 1]`
condition the claim is false, see the counterexample.) -/
theorem american_put_ge_european (S K T r sigma : ℝ) (steps : ℕ)
    (hS : 0 < S) (hK : 0 < K) (hT : 0 < T) (hsigma : 0 < sigma)
    (hsteps : 1 ≤ steps)
    (hp0 : 0 ≤ (mkBinomialTree S K T r sigma steps "put" "american").p)
    (hp1 : (mkBinomialTree S K T r sigma steps "put" "american").p ≤ 1) :
    isOkE ((mkBinomialTree S K T r sigma steps "put" "european").price) = true
    ∧ isOkE ((mkBinomialTree S K T r sigma steps "put" "american").price) =
      true
    ∧ priceOf ((mkBinomialTree S K T r sigma steps "put" "european").price) ≤
      priceOf ((mkBinomialTree S K T r sigma steps "put" "american").price) := by
  have hkc : (mkBinomialTree S K T r sigma steps "put" "european").option_type
      ≠ "call" := by simp only [mkBinomialTree]; decide
  have hkp : (mkBinomialTree S K T r sigma steps "put" "european").option_type
      = "put" := by simp only [mkBinomialTree]; decide
  have hkc' : (mkBinomialTree S K T r sigma steps "put" "american").option_type
      ≠ "call" := by simp only [mkBinomialTree]; decide
  have hkp' : (mkBinomialTree S K T r sigma steps "put" "american").option_type
      = "put" := by simp only [mkBinomialTree]; decide
  have heu : (mkBinomialTree S K T r sigma steps "put" "european").price =
      Except.ok ((mkBinomialTree S K T r sigma steps "put" "european").priceCore
        (fun s => max 0 ((mkBinomialTree S K T r sigma steps "put"
          "european").K - s))) := by
    rw [BinomialTreeModel.price, if_neg hkc, if_pos hkp]
  have ham : (mkBinomialTree S K T r sigma steps "put" "american").price =
      Except.ok ((mkBinomialTree S K T r sigma steps "put" "american").priceCore
        (fun s => max 0 ((mkBinomialTree S K T r sigma steps "put"
          "american").K - s))) := by
    rw [BinomialTreeModel.price, if_neg hkc', if_pos hkp']
  refine ⟨by rw [heu]; rfl, by rw [ham]; rfl, ?_⟩
  rw [heu, ham, priceOf_ok, priceOf_ok]
  have hexeu : ((mkBinomialTree S K T r sigma steps "put" "european").exercise
      == "american") = false := by simp only [mkBinomialTree]; decide
  have hexam : ((mkBinomialTree S K T r sigma steps "put" "american").exercise
      == "american") = true := by simp only [mkBinomialTree]; decide
  rw [BinomialTreeModel.priceCore, BinomialTreeModel.priceCore, hexeu, hexam]
  have hd : 0 ≤ (mkBinomialTree S K T r sigma steps "put" "american").discount :=
    le_of_lt (Real.exp_pos _)
  exact nodeValueGen_false_le_true _ _ hd hp0 hp1 _ steps 0

theorem american_put_ge_european_witness :
    0 ≤ (mkBinomialTree (100:ℝ) 100 2 0 1 2 "put" "american").p ∧
    (mkBinomialTree (100:ℝ) 100 2 0 1 2 "put" "american").p ≤ 1 ∧
    priceOf ((mkBinomialTree (100:ℝ) 100 2 0 1 2 "put" "european").price) ≤
      priceOf ((mkBinomialTree (100:ℝ) 100 2 0 1 2 "put" "american").price) := by
  have hE1 : (1:ℝ) < Real.exp 1 := Real.one_lt_exp_iff.mpr (by norm_num)
  have hEinv : (Real.exp 1)⁻¹ < 1 := inv_lt_one_of_one_lt₀ hE1
  have hden : (0:ℝ) < Real.exp 1 - (Real.exp 1)⁻¹ := by linarith
  have hp : (mkBinomialTree (100:ℝ) 100 2 0 1 2 "put" "american").p =
      (1 - (Real.exp 1)⁻¹) / (Real.exp 1 - (Real.exp 1)⁻¹) := by
    simp only [BinomialTreeModel.p, BinomialTreeModel.d, BinomialTreeModel.u,
      BinomialTreeModel.dt, mkBinomialTree]
    norm_num [Real.sqrt_one, Real.exp_zero, one_div]
  have hp0 : 0 ≤ (mkBinomialTree (100:ℝ) 100 2 0 1 2 "put" "american").p := by
    rw [hp]
    apply div_nonneg (by linarith) (le_of_lt hden)
  have hp1 : (mkBinomialTree (100:ℝ) 100 2 0 1 2 "put" "american").p ≤ 1 := by
    rw [hp]
    rw [div_le_one hden]
    linarith
  exact ⟨hp0, hp1,
    (american_put_ge_european 100 100 2 0 1 2 (by norm_num) (by norm_num)
      (by norm_num) (by norm_num) (by norm_num) hp0 hp1).2.2⟩

theorem nodeValueGen_eval2_false (discount p : ℝ) (f : ℕ → ℕ → ℝ) :
    nodeValueGen discount p f false 2 0 =
      discount * (p * (discount * (p * f 0 0 + (1 - p) * f 0 1)) +
        (1 - p) * (discount * (p * f 0 1 + (1 - p) * f 0 2))) := rfl

theorem nodeValueGen_eval2_true (discount p : ℝ) (f : ℕ → ℕ → ℝ) :
    nodeValueGen discount p f true 2 0 =
      max (discount *
        (p * max (discount * (p * f 0 0 + (1 - p) * f 0 1)) (f 1 0) +
          (1 - p) * max (discount * (p * f 0 1 + (1 - p) * f 0 2)) (f 1 1)))
        (f 2 0) := rfl

theorem binPut2_am_price :
    (mkBinomialTree (100:ℝ) 100 2 3 1 2 "put" "american").price =
    Except.ok (nodeValueGen ((Real.exp 3)⁻¹)
      ((Real.exp 3 - (Real.exp 1)⁻¹) / (Real.exp 1 - (Real.exp 1)⁻¹))
      (fun k j =>
        max 0 (100 - 100 * Real.exp 1 ^ (2 - k - j) * ((Real.exp 1)⁻¹) ^ j))
      true 2 0) := by
  rw [BinomialTreeModel.price, if_neg (by simp only [mkBinomialTree]; decide),
    if_pos (by simp only [mkBinomialTree]; decide)]
  congr 1
  simp only [BinomialTreeModel.priceCore, BinomialTreeModel.stockPrice,
    BinomialTreeModel.discount, BinomialTreeModel.p, BinomialTreeModel.u,
    BinomialTreeModel.d, BinomialTreeModel.dt, mkBinomialTree]
  norm_num [Real.sqrt_one, Real.exp_neg, one_div,
    (by decide : (strLower "american" == "american") = true)]

theorem binPut2_eu_price :
    (mkBinomialTree (100:ℝ) 100 2 3 1 2 "put" "european").price =
    Except.ok (nodeValueGen ((Real.exp 3)⁻¹)
      ((Real.exp 3 - (Real.exp 1)⁻¹) / (Real.exp 1 - (Real.exp 1)⁻¹))
      (fun k j =>
        max 0 (100 - 100 * Real.exp 1 ^ (2 - k - j) * ((Real.exp 1)⁻¹) ^ j))
      false 2 0) := by
  rw [BinomialTreeModel.price, if_neg (by simp only [mkBinomialTree]; decide),
    if_pos (by simp only [mkBinomialTree]; decide)]
  congr 1
  simp only [BinomialTreeModel.priceCore, BinomialTreeModel.stockPrice,
    BinomialTreeModel.discount, BinomialTreeModel.p, BinomialTreeModel.u,
    BinomialTreeModel.d, BinomialTreeModel.dt, mkBinomialTree]
  norm_num [Real.sqrt_one, Real.exp_neg, one_div,
    (by decide : (strLower "european" == "american") = false)]

/-- C6 counterexample: for the valid put contract `S = K = 100`, `T = 2`,
`r = 3`, `sigma = 1` with `N = 2` steps (the derived risk-neutral probability
exceeds 1 because `e^(r·dt) > u`), the American binomial price is strictly
*below* the European binomial price, refuting the claim as stated. -/
theorem american_put_lt_european_counterexample :
    isOkE ((mkBinomialTree (100:ℝ) 100 2 3 1 2 "put" "american").price) = true
    ∧ isOkE ((mkBinomialTree (100:ℝ) 100 2 3 1 2 "put" "european").price) =
      true
    ∧ priceOf ((mkBinomialTree (100:ℝ) 100 2 3 1 2 "put" "american").price) <
      priceOf ((mkBinomialTree (100:ℝ) 100 2 3 1 2 "put" "european").price) := by
  refine ⟨by rw [binPut2_am_price]; rfl, by rw [binPut2_eu_price]; rfl, ?_⟩
  rw [binPut2_am_price, binPut2_eu_price, priceOf_ok, priceOf_ok,
    nodeValueGen_eval2_true, nodeValueGen_eval2_false]
  simp only [show (2:ℕ)-0-0 = 2 from rfl, show (2:ℕ)-0-1 = 1 from rfl,
    show (2:ℕ)-0-2 = 0 from rfl, show (2:ℕ)-1-0 = 1 from rfl,
    show (2:ℕ)-1-1 = 0 from rfl, show (2:ℕ)-2-0 = 0 from rfl,
    pow_zero, pow_one, mul_one, one_mul]
  set A := Real.exp 1 with hA
  set B := Real.exp 3 with hB
  have hA1 : (1:ℝ) < A := Real.one_lt_exp_iff.mpr one_pos
  have hApos : (0:ℝ) < A := Real.exp_pos 1
  have hAinvpos : (0:ℝ) < A⁻¹ := by positivity
  have hAinv : A⁻¹ < 1 := inv_lt_one_of_one_lt₀ hA1
  have hAB : A < B := Real.exp_lt_exp.mpr (by norm_num)
  have hDpos : (0:ℝ) < B⁻¹ := by positivity
  have hden : (0:ℝ) < A - A⁻¹ := by linarith
  have hP1 : 1 < (B - A⁻¹) / (A - A⁻¹) := by rw [one_lt_div hden]; linarith
  set P := (B - A⁻¹) / (A - A⁻¹) with hPdef
  set D := B⁻¹ with hDdef
  simp only [mul_inv_cancel_right₀ (ne_of_gt hApos), sub_self, sup_idem,
    mul_zero, add_zero, zero_add]
  have hV2pos : (0:ℝ) < 100 - 100 * A⁻¹ ^ 2 := by nlinarith
  have hV1pos : (0:ℝ) < 100 - 100 * A⁻¹ := by nlinarith
  have hmax00 : (0:ℝ) ⊔ (100 - 100 * A ^ 2) = 0 := sup_eq_left.mpr (by nlinarith)
  have hmax10 : (0:ℝ) ⊔ (100 - 100 * A) = 0 := sup_eq_left.mpr (by nlinarith)
  have hmax02 : (0:ℝ) ⊔ (100 - 100 * A⁻¹ ^ 2) = 100 - 100 * A⁻¹ ^ 2 :=
    sup_eq_right.mpr (le_of_lt hV2pos)
  have hmax11 : (0:ℝ) ⊔ (100 - 100 * A⁻¹) = 100 - 100 * A⁻¹ :=
    sup_eq_right.mpr (le_of_lt hV1pos)
  rw [hmax00, hmax10, hmax02, hmax11]
  have hneg : D * ((1 - P) * (100 - 100 * A⁻¹ ^ 2)) < 0 :=
    mul_neg_of_pos_of_neg hDpos (mul_neg_of_neg_of_pos (by linarith) hV2pos)
  have hneg1 : D * ((1 - P) * (100 - 100 * A⁻¹)) < 0 :=
    mul_neg_of_pos_of_neg hDpos (mul_neg_of_neg_of_pos (by linarith) hV1pos)
  simp only [mul_zero, add_zero, zero_add, sup_idem]
  have hm2 : D * ((1 - P) * (100 - 100 * A⁻¹ ^ 2)) ⊔ (100 - 100 * A⁻¹) =
      100 - 100 * A⁻¹ := sup_eq_right.mpr (by linarith)
  rw [hm2]
  have hm3 : D * ((1 - P) * (100 - 100 * A⁻¹)) ⊔ 0 = 0 :=
    sup_eq_right.mpr (le_of_lt hneg1)
  rw [hm3]
  exact mul_pos hDpos (mul_pos_of_neg_of_neg (by linarith) hneg)

/-! ## Monte Carlo engine (`src/backend/models/monte_carlo.py`) -/

/-- State of the process-wide `numpy.random` generator: the seed last planted
by `np.random.seed` and the number of standard-normal draws consumed since
then.  The concrete draw values are supplied by an ambient table
`draw : ℕ → ℕ → ℝ` (seed, position ↦ value) abstracting the pseudorandom
stream. -/
structure GlobalRng where
  seed : ℕ
  pos : ℕ
  deriving DecidableEq

/-- State stored by `MonteCarloModel.__init__`. -/
structure MonteCarloModel where
  S : ℝ
  K : ℝ
  T : ℝ
  r : ℝ
  sigma : ℝ
  simulations : ℕ
  option_type : String
  seed : Option ℕ

/-- `MonteCarloModel.__init__`: stores the parameters (lower-casing the option
kind) and, when a seed is given, reseeds the *global* generator via
`np.random.seed(seed)` — returning the engine state and the new global
generator state. -/
def mcInit (S K T r sigma : ℝ) (simulations : ℕ := 10000)
    (option_type : String := "call") (seed : Option ℕ := none)
    (g : GlobalRng) : MonteCarloModel × GlobalRng :=
  (⟨S, K, T, r, sigma, simulations, strLower option_type, seed⟩,
    match seed with
    | some s => ⟨s, 0⟩
    | none => g)

/-- Entry `(i, t)` of the path matrix built by `_simulate_paths`: geometric
Brownian motion with `dt = T/steps`, where the draw consumed for path `i` at
step `t+1` sits at offset `t * simulations + i` of the stream (the source
draws one vector of `simulations` normals per time step). -/
noncomputable def pathEntry (draw : ℕ → ℕ → ℝ) (m : MonteCarloModel)
    (steps : ℕ) (g : GlobalRng) : ℕ → ℕ → ℝ
  | _, 0 => m.S
  | i, t + 1 =>
    pathEntry draw m steps g i t *
      Real.exp ((m.r - 0.5 * m.sigma ^ 2) * (m.T / steps) +
        m.sigma * Real.sqrt (m.T / steps) *
          draw g.seed (g.pos + t * m.simulations + i))

/-- `MonteCarloModel._simulate_paths`: returns the path matrix and the global
generator advanced by the `steps * simulations` draws it consumed. -/
noncomputable def simulatePaths (draw : ℕ → ℕ → ℝ) (m : MonteCarloModel)
    (steps : ℕ) (g : GlobalRng) : (ℕ → ℕ → ℝ) × GlobalRng :=
  (pathEntry draw m steps g, ⟨g.seed, g.pos + steps * m.simulations⟩)

/-- `MonteCarloModel.price`: simulates the paths (advancing the global
generator), then branches on the option kind — raising `ValueError` for
unknown kinds only after the simulation has run, exactly as in the source
where `_simulate_paths` is called before the payoff branch. -/
noncomputable def mcPrice (m : MonteCarloModel) (steps : ℕ := 100)
    (draw : ℕ → ℕ → ℝ) (g : GlobalRng) :
    Except PricingError ℝ × GlobalRng :=
  let sim := simulatePaths draw m steps g
  (if m.option_type = "call" then
      Except.ok (Real.exp (-m.r * m.T) *
        ((∑ i in Finset.range m.simulations, max (sim.1 i steps - m.K) 0) /
          m.simulations))
    else if m.option_type = "put" then
      Except.ok (Real.exp (-m.r * m.T) *
        ((∑ i in Finset.range m.simulations, max (m.K - sim.1 i steps) 0) /
          m.simulations))
    else Except.error PricingError.invalidParameter,
   sim.2)

/-- Result dict of `MonteCarloModel.price_with_confidence`. -/
structure ConfidenceResult where
  price : ℝ
  std : ℝ
  std_error : ℝ
  lower_bound : ℝ
  upper_bound : ℝ

/-- `MonteCarloModel.price_with_confidence`: note its payoff branch has *no*
error case (any kind other than `call` takes the put payoff), and
`scipy.stats.norm.ppf` is abstracted as the parameter `ppf`. -/
noncomputable def mcPriceWithConfidence (m : MonteCarloModel)
    (steps : ℕ := 100) (confidence : ℝ := 0.95) (ppf : ℝ → ℝ)
    (draw : ℕ → ℕ → ℝ) (g : GlobalRng) : ConfidenceResult × GlobalRng :=
  let sim := simulatePaths draw m steps g
  let discounted : ℕ → ℝ := fun i =>
    Real.exp (-m.r * m.T) *
      (if m.option_type = "call" then max (sim.1 i steps - m.K) 0
       else max (m.K - sim.1 i steps) 0)
  let price := (∑ i in Finset.range m.simulations, discounted i) /
    m.simulations
  let std := Real.sqrt ((∑ i in Finset.range m.simulations,
    (discounted i - price) ^ 2) / m.simulations)
  let std_error := std / Real.sqrt m.simulations
  let z := ppf ((1 + confidence) / 2)
  (⟨price, std, std_error, price - z * std_error, price + z * std_error⟩,
    sim.2)

/-- `MonteCarloModel.get_paths`: temporarily overwrites `self.simulations`
with `num_paths`, simulates (advancing the global generator), then restores
the original count.  Returns (paths, engine state after the call, global
generator after the call). -/
noncomputable def mcGetPaths (m : MonteCarloModel) (num_paths : ℕ := 100)
    (steps : ℕ := 100) (draw : ℕ → ℕ → ℝ) (g : GlobalRng) :
    (ℕ → ℕ → ℝ) × MonteCarloModel × GlobalRng :=
  let m1 : MonteCarloModel := { m with simulations := num_paths }
  let sim := simulatePaths draw m1 steps g
  let m2 : MonteCarloModel := { m1 with simulations := m.simulations }
  (sim.1, m2, sim.2)

theorem mcPrice_invalid_kind (m : MonteCarloModel) (steps : ℕ)
    (draw : ℕ → ℕ → ℝ) (g : GlobalRng)
    (h1 : m.option_type ≠ "call") (h2 : m.option_type ≠ "put") :
    mcPrice m steps draw g =
      (Except.error PricingError.invalidParameter,
        ⟨g.seed, g.pos + steps * m.simulations⟩) := by
  simp only [mcPrice, simulatePaths]
  rw [if_neg h1, if_neg h2]

/-- C3 (amended): pricing with an option kind outside {call, put} fails with
the InvalidParameter error in all three engines, but not before
floating-point computation: in particular the Monte Carlo engine consumes the
full `steps * simulations` block of random draws (it simulates the whole path
ensemble) before failing. -/
theorem invalid_kind_rejected (S K T r sigma : ℝ)
    (steps nsim psteps : ℕ) (draw : ℕ → ℕ → ℝ) (g : GlobalRng)
    (kind ex : String)
    (h1 : strLower kind ≠ "call") (h2 : strLower kind ≠ "put") :
    (mkBlackScholes S K T r sigma kind).price =
      Except.error PricingError.invalidParameter
    ∧ (mkBinomialTree S K T r sigma steps kind ex).price =
      Except.error PricingError.invalidParameter
    ∧ (mcPrice (mcInit S K T r sigma nsim kind none g).1 psteps draw g).1 =
      Except.error PricingError.invalidParameter
    ∧ (mcPrice (mcInit S K T r sigma nsim kind none g).1 psteps draw g).2 =
      ⟨g.seed, g.pos + psteps * nsim⟩ := by
  have hbs1 : (mkBlackScholes S K T r sigma kind).option_type ≠ "call" := h1
  have hbs2 : (mkBlackScholes S K T r sigma kind).option_type ≠ "put" := h2
  have hbt1 : (mkBinomialTree S K T r sigma steps kind ex).option_type ≠
      "call" := h1
  have hbt2 : (mkBinomialTree S K T r sigma steps kind ex).option_type ≠
      "put" := h2
  have hmc1 : (mcInit S K T r sigma nsim kind none g).1.option_type ≠
      "call" := h1
  have hmc2 : (mcInit S K T r sigma nsim kind none g).1.option_type ≠
      "put" := h2
  have hmc := mcPrice_invalid_kind (mcInit S K T r sigma nsim kind none g).1
    psteps draw g hmc1 hmc2
  refine ⟨?_, ?_, ?_, ?_⟩
  · rw [BlackScholesModel.price, if_neg hbs1, if_neg hbs2]
  · rw [BinomialTreeModel.price, if_neg hbt1, if_neg hbt2]
  · rw [hmc]
  · rw [hmc]
    rfl

theorem invalid_kind_rejected_witness :
    strLower "straddle" ≠ "call" ∧ strLower "straddle" ≠ "put" ∧
    (mkBlackScholes (100:ℝ) 100 1 (1/20) (1/5) "straddle").price =
      Except.error PricingError.invalidParameter ∧
    (mcPrice (mcInit (100:ℝ) 100 1 (1/20) (1/5) 10 "straddle" none
        ⟨0, 0⟩).1 5 (fun _ i => (i : ℝ)) ⟨0, 0⟩).2 =
      ⟨0, 0 + 5 * 10⟩ := by
  refine ⟨by decide, by decide, ?_, ?_⟩
  · exact (invalid_kind_rejected 100 100 1 (1/20) (1/5) 2 10 5
      (fun _ i => (i : ℝ)) ⟨0, 0⟩ "straddle" "european" (by decide)
      (by decide)).1
  · exact (invalid_kind_rejected 100 100 1 (1/20) (1/5) 2 10 5
      (fun _ i => (i : ℝ)) ⟨0, 0⟩ "straddle" "european" (by decide)
      (by decide)).2.2.2

/-- C3 counterexample: pricing a "straddle" with the Monte Carlo engine
(1 path, 1 step) does raise InvalidParameter, but only *after* consuming a
random draw: the global generator ends at position 1, not 0, so the path
simulation executed before the failure — refuting "before any floating-point
computation executes". -/
theorem invalid_kind_after_simulation_counterexample :
    (mcPrice (mcInit 1 1 1 0 1 1 "straddle" none ⟨42, 0⟩).1 1
      (fun _ i => (i : ℝ)) ⟨42, 0⟩).1 =
      Except.error PricingError.invalidParameter
    ∧ (mcPrice (mcInit 1 1 1 0 1 1 "straddle" none ⟨42, 0⟩).1 1
      (fun _ i => (i : ℝ)) ⟨42, 0⟩).2 ≠ (⟨42, 0⟩ : GlobalRng) := by
  have hmc1 : (mcInit 1 1 1 0 1 1 "straddle" none ⟨42, 0⟩).1.option_type ≠
      "call" := by decide
  have hmc2 : (mcInit 1 1 1 0 1 1 "straddle" none ⟨42, 0⟩).1.option_type ≠
      "put" := by decide
  have hmc := mcPrice_invalid_kind (mcInit 1 1 1 0 1 1 "straddle" none
    ⟨42, 0⟩).1 1 (fun _ i => (i : ℝ)) ⟨42, 0⟩ hmc1 hmc2
  constructor
  · rw [hmc]
  · rw [hmc]
    intro h
    have : (⟨42, 0 + 1 * 1⟩ : GlobalRng) = ⟨42, 0⟩ := h
    simp at this

/-- C7 (amended): construction with a fixed seed reseeds the global
generator, so an engine instance whose construction is immediately followed
by its own pricing call produces an output depending only on the seed and
parameters: two such construct-then-price runs give identical results no
matter what global state each starts from (in particular for two instances
run one after the other).  The original claim's "regardless of interleaving"
fails — see the counterexample. -/
theorem mc_seed_reproducibility (S K T r sigma : ℝ)
    (nsim psteps seed : ℕ) (kind : String) (confidence : ℝ)
    (ppf : ℝ → ℝ) (draw : ℕ → ℕ → ℝ) (g g' : GlobalRng) :
    mcPriceWithConfidence (mcInit S K T r sigma nsim kind (some seed) g).1
        psteps confidence ppf draw
        (mcInit S K T r sigma nsim kind (some seed) g).2 =
      mcPriceWithConfidence (mcInit S K T r sigma nsim kind (some seed) g').1
        psteps confidence ppf draw
        (mcInit S K T r sigma nsim kind (some seed) g').2 := rfl

/-- C8 (amended): the path-inspection accessor restores the engine state
exactly (the simulation count in particular), but it advances the global
random stream by `steps * num_paths` draws, so it is not transparent to
subsequent pricing calls — see the counterexample. -/
theorem get_paths_restores_engine_state (m : MonteCarloModel)
    (num_paths psteps : ℕ) (draw : ℕ → ℕ → ℝ) (g : GlobalRng) :
    (mcGetPaths m num_paths psteps draw g).2.1 = m
    ∧ (mcGetPaths m num_paths psteps draw g).2.2 =
      ⟨g.seed, g.pos + psteps * num_paths⟩ :=
  ⟨rfl, rfl⟩

theorem pathEntry_single (p : ℕ) :
    pathEntry (fun _ i => (i : ℝ))
      (mcInit 1 0 1 0 1 1 "call" (some 42) ⟨0, 0⟩).1 1 ⟨42, p⟩ 0 1 =
      Real.exp (-(1/2) + p) := by
  show (mcInit (1:ℝ) 0 1 0 1 1 "call" (some 42) ⟨0, 0⟩).1.S *
      Real.exp (((mcInit (1:ℝ) 0 1 0 1 1 "call" (some 42) ⟨0, 0⟩).1.r -
        0.5 * (mcInit (1:ℝ) 0 1 0 1 1 "call" (some 42) ⟨0, 0⟩).1.sigma ^ 2) *
          ((mcInit (1:ℝ) 0 1 0 1 1 "call" (some 42) ⟨0, 0⟩).1.T / (1:ℕ)) +
        (mcInit (1:ℝ) 0 1 0 1 1 "call" (some 42) ⟨0, 0⟩).1.sigma *
          Real.sqrt ((mcInit (1:ℝ) 0 1 0 1 1 "call" (some 42) ⟨0, 0⟩).1.T /
            (1:ℕ)) * ((p + 0 *
              (mcInit (1:ℝ) 0 1 0 1 1 "call" (some 42) ⟨0, 0⟩).1.simulations
              + 0 : ℕ) : ℝ)) = Real.exp (-(1/2) + p)
  simp only [mcInit]
  norm_num [Real.sqrt_one]

theorem mcPrice_eval_single (p : ℕ) :
    (mcPrice (mcInit 1 0 1 0 1 1 "call" (some 42) ⟨0, 0⟩).1 1
      (fun _ i => (i : ℝ)) ⟨42, p⟩).1 = Except.ok (Real.exp (-(1/2) + p)) := by
  have hcall : (mcInit (1:ℝ) 0 1 0 1 1 "call" (some 42) ⟨0, 0⟩).1.option_type
      = "call" := by decide
  have hsims : (mcInit (1:ℝ) 0 1 0 1 1 "call" (some 42) ⟨0, 0⟩).1.simulations
      = 1 := rfl
  have hr : (mcInit (1:ℝ) 0 1 0 1 1 "call" (some 42) ⟨0, 0⟩).1.r = 0 := rfl
  have hT : (mcInit (1:ℝ) 0 1 0 1 1 "call" (some 42) ⟨0, 0⟩).1.T = 1 := rfl
  have hK : (mcInit (1:ℝ) 0 1 0 1 1 "call" (some 42) ⟨0, 0⟩).1.K = 0 := rfl
  simp only [mcPrice, simulatePaths]
  rw [if_pos hcall]
  congr 1
  rw [hsims, hr, hT, hK, Finset.sum_range_one, pathEntry_single]
  norm_num [Real.exp_zero]
  exact le_of_lt (Real.exp_pos _)

theorem mcPWC_eval_single (p : ℕ) :
    ((mcPriceWithConfidence (mcInit 1 0 1 0 1 1 "call" (some 42) ⟨0, 0⟩).1 1
      (95/100) (fun _ => 0) (fun _ i => (i : ℝ)) ⟨42, p⟩).1).price =
      Real.exp (-(1/2) + p) := by
  have hcall : (mcInit (1:ℝ) 0 1 0 1 1 "call" (some 42) ⟨0, 0⟩).1.option_type
      = "call" := by decide
  have hsims : (mcInit (1:ℝ) 0 1 0 1 1 "call" (some 42) ⟨0, 0⟩).1.simulations
      = 1 := rfl
  have hr : (mcInit (1:ℝ) 0 1 0 1 1 "call" (some 42) ⟨0, 0⟩).1.r = 0 := rfl
  have hT : (mcInit (1:ℝ) 0 1 0 1 1 "call" (some 42) ⟨0, 0⟩).1.T = 1 := rfl
  have hK : (mcInit (1:ℝ) 0 1 0 1 1 "call" (some 42) ⟨0, 0⟩).1.K = 0 := rfl
  simp only [mcPriceWithConfidence, simulatePaths]
  rw [hsims, Finset.sum_range_one, pathEntry_single, hr, hT, hK, hcall]
  norm_num [Real.exp_zero]
  exact le_of_lt (Real.exp_pos _)

/-- C7 counterexample: interleave the construction of two identically seeded
engines with their pricing calls (construct A, construct B, price A,
price B).  Because construction seeds the *global* generator, the second
pricing call continues the stream from where the first left it instead of
restarting at the seed, and — for a stream whose draws differ across
positions, here `draw seed i = i` — the two engines' `price_with_confidence`
outputs are not bit-identical. -/
theorem mc_interleaving_counterexample :
    ((mcPriceWithConfidence
        (mcInit 1 0 1 0 1 1 "call" (some 42) ⟨0, 0⟩).1 1 (95/100)
        (fun _ => 0) (fun _ i => (i : ℝ))
        (mcInit 1 0 1 0 1 1 "call" (some 42)
          (mcInit 1 0 1 0 1 1 "call" (some 42) ⟨0, 0⟩).2).2).1).price ≠
    ((mcPriceWithConfidence
        (mcInit 1 0 1 0 1 1 "call" (some 42)
          (mcInit 1 0 1 0 1 1 "call" (some 42) ⟨0, 0⟩).2).1 1 (95/100)
        (fun _ => 0) (fun _ i => (i : ℝ))
        (mcPriceWithConfidence
          (mcInit 1 0 1 0 1 1 "call" (some 42) ⟨0, 0⟩).1 1 (95/100)
          (fun _ => 0) (fun _ i => (i : ℝ))
          (mcInit 1 0 1 0 1 1 "call" (some 42)
            (mcInit 1 0 1 0 1 1 "call" (some 42) ⟨0, 0⟩).2).2).2).1).price := by
  have e1 : (mcInit (1:ℝ) 0 1 0 1 1 "call" (some 42)
      (mcInit (1:ℝ) 0 1 0 1 1 "call" (some 42) ⟨0, 0⟩).2).2 =
      (⟨42, 0⟩ : GlobalRng) := rfl
  have e2 : (mcInit (1:ℝ) 0 1 0 1 1 "call" (some 42)
      (mcInit (1:ℝ) 0 1 0 1 1 "call" (some 42) ⟨0, 0⟩).2).1 =
      (mcInit (1:ℝ) 0 1 0 1 1 "call" (some 42) ⟨0, 0⟩).1 := rfl
  rw [e1, e2]
  have e3 : (mcPriceWithConfidence
      (mcInit (1:ℝ) 0 1 0 1 1 "call" (some 42) ⟨0, 0⟩).1 1 (95/100)
      (fun _ => 0) (fun _ i => (i : ℝ)) ⟨42, 0⟩).2 =
      (⟨42, 1⟩ : GlobalRng) := rfl
  rw [e3, mcPWC_eval_single 0, mcPWC_eval_single 1]
  intro h
  have := Real.exp_eq_exp.mp h
  norm_num at this

/-- C8 counterexample: with a freshly seeded engine, running `get_paths`
before `price` changes the pricing result: the accessor consumed draws from
the global stream (even though it restored the `simulations` field), so the
subsequent `price` call sees different normals than the same call without the
path inspection. -/
theorem get_paths_alters_pricing_counterexample :
    (mcPrice
      ((mcGetPaths (mcInit 1 0 1 0 1 1 "call" (some 42) ⟨0, 0⟩).1 1 1
        (fun _ i => (i : ℝ))
        (mcInit 1 0 1 0 1 1 "call" (some 42) ⟨0, 0⟩).2).2.1)
      1 (fun _ i => (i : ℝ))
      ((mcGetPaths (mcInit 1 0 1 0 1 1 "call" (some 42) ⟨0, 0⟩).1 1 1
        (fun _ i => (i : ℝ))
        (mcInit 1 0 1 0 1 1 "call" (some 42) ⟨0, 0⟩).2).2.2)).1 ≠
    (mcPrice (mcInit 1 0 1 0 1 1 "call" (some 42) ⟨0, 0⟩).1 1
      (fun _ i => (i : ℝ))
      (mcInit 1 0 1 0 1 1 "call" (some 42) ⟨0, 0⟩).2).1 := by
  have em : (mcGetPaths (mcInit (1:ℝ) 0 1 0 1 1 "call" (some 42) ⟨0, 0⟩).1 1 1
      (fun _ i => (i : ℝ))
      (mcInit (1:ℝ) 0 1 0 1 1 "call" (some 42) ⟨0, 0⟩).2).2.1 =
      (mcInit (1:ℝ) 0 1 0 1 1 "call" (some 42) ⟨0, 0⟩).1 := rfl
  have eg : (mcGetPaths (mcInit (1:ℝ) 0 1 0 1 1 "call" (some 42) ⟨0, 0⟩).1 1 1
      (fun _ i => (i : ℝ))
      (mcInit (1:ℝ) 0 1 0 1 1 "call" (some 42) ⟨0, 0⟩).2).2.2 =
      (⟨42, 1⟩ : GlobalRng) := rfl
  have eg0 : (mcInit (1:ℝ) 0 1 0 1 1 "call" (some 42) ⟨0, 0⟩).2 =
      (⟨42, 0⟩ : GlobalRng) := rfl
  rw [em, eg, eg0, mcPrice_eval_single 1, mcPrice_eval_single 0]
  intro h
  have := Real.exp_eq_exp.mp (Except.ok.inj h)
  norm_num at this

/-- C2 (code bug): none of the three engine constructors validates positivity
of `S`, `K`, `T`, `sigma` (the constructors are total functions and cannot
fail), and pricing at `S = -1 ≤ 0` still returns a numeric `ok` result in all
three engines instead of an InvalidRange failure. -/
theorem invalid_range_not_rejected :
    isOkE ((mkBlackScholes (-1 : ℝ) 100 1 (1/20) (1/5) "call").price) = true
    ∧ isOkE ((mkBinomialTree (-1 : ℝ) 100 1 (1/20) (1/5) 100 "call"
        "european").price) = true
    ∧ isOkE ((mcPrice (mcInit (-1 : ℝ) 100 1 (1/20) (1/5) 10 "call" none
        ⟨0, 0⟩).1 1 (fun _ i => (i : ℝ)) ⟨0, 0⟩).1) = true := by
  refine ⟨?_, ?_, ?_⟩
  · rw [bs_price_call]
    rfl
  · rw [BinomialTreeModel.price,
      if_pos (show (mkBinomialTree (-1 : ℝ) 100 1 (1/20) (1/5) 100 "call"
        "european").option_type = "call" by decide)]
    rfl
  · have hcall : (mcInit (-1:ℝ) 100 1 (1/20) (1/5) 10 "call" none
        ⟨0, 0⟩).1.option_type = "call" := by decide
    simp only [mcPrice, simulatePaths]
    rw [if_pos hcall]
    rfl

/-! ## Analyzer (`src/backend/utils/analyzer.py`) -/

/-- Output dict of `OptionsAnalyzer.payoff_diagram`. -/
structure PayoffResult where
  spot_prices : List ℚ
  payoff : List ℚ
  profit_loss : List ℚ
  deriving DecidableEq

/-- `OptionsAnalyzer.payoff_diagram`, modelled over `ℚ` (it uses only field
operations and `max`): the intrinsic payoff is computed per spot (any kind
other than `call` takes the put payoff); for a `long` position the
profit/loss is `payoff - premium`; any other position is treated as short:
the payoff is sign-inverted first and the profit/loss is then
`-payoff + premium` pointwise. -/
def payoff_diagram (S_range : List ℚ) (K premium : ℚ)
    (option_type : String := "call") (position : String := "long") :
    PayoffResult :=
  let payoff := S_range.map (fun s =>
    if option_type = "call" then max (s - K) 0 else max (K - s) 0)
  if position = "long" then
    ⟨S_range, payoff, payoff.map (fun x => x - premium)⟩
  else
    let payoff2 := payoff.map (fun x => -x)
    ⟨S_range, payoff2, payoff2.map (fun x => -x + premium)⟩

/-- C1 counterexample: for a short call with strike 100 and premium 5 at spot
120, the code returns profit/loss 25 (premium *plus* the intrinsic value 20),
not premium minus the intrinsic value (5 - 20 = -15) as the claim states. -/
theorem payoff_short_counterexample :
    (payoff_diagram [120] 100 5 "call" "short").profit_loss = [25]
    ∧ (payoff_diagram [120] 100 5 "call" "short").profit_loss ≠
      [5 - max (120 - 100 : ℚ) 0] := by
  have h20 : max ((120:ℚ) - 100) 0 = 20 := by
    rw [max_eq_left (by norm_num)]
    norm_num
  constructor
  · simp [payoff_diagram, h20]
    norm_num
  · simp [payoff_diagram, h20]
    norm_num

/-- C1 (amended): at each spot the payoff diagram returns — long position:
payoff = intrinsic value and profit/loss = intrinsic − premium; short
position: payoff = sign-inverted intrinsic value and profit/loss =
−payoff + premium, which equals premium *plus* the intrinsic value (the
source inverts the payoff before applying `-payoff + premium`, so its two
negations cancel). -/
theorem payoff_diagram_eval (S_range : List ℚ) (K premium : ℚ)
    (kind : String) :
    (payoff_diagram S_range K premium kind "long" =
      ⟨S_range,
        S_range.map (fun s =>
          if kind = "call" then max (s - K) 0 else max (K - s) 0),
        S_range.map (fun s =>
          (if kind = "call" then max (s - K) 0 else max (K - s) 0) -
            premium)⟩)
    ∧ (payoff_diagram S_range K premium kind "short" =
      ⟨S_range,
        S_range.map (fun s =>
          -(if kind = "call" then max (s - K) 0 else max (K - s) 0)),
        S_range.map (fun s =>
          (if kind = "call" then max (s - K) 0 else max (K - s) 0) +
            premium)⟩) := by
  constructor
  · rw [payoff_diagram, if_pos rfl]
    congr 1
    rw [List.map_map]
    rfl
  · rw [payoff_diagram, if_neg (by decide : ("short" : String) ≠ "long")]
    dsimp only
    congr 1
    · rw [List.map_map]
      rfl
    · rw [List.map_map, List.map_map]
      congr 1
      funext s
      show -(-(if kind = "call" then max (s - K) 0 else max (K - s) 0)) +
          premium = _
      ring

/-- Newton-Raphson loop of `OptionsAnalyzer.calculate_implied_volatility`,
with the remaining iteration budget as the recursion fuel.  Per iteration it
prices and computes the un-scaled vega (`model.vega() * 100`) at the current
sigma, returns `some sigma` on convergence, returns the signal `none` when
vega is exactly zero, otherwise recurses on the Newton update clamped to
`0.01` whenever the update is `≤ 0`; an exhausted budget also returns `none`
(the source returns `None` for both the zero-vega guard and
non-convergence).  A `ValueError` raised while pricing an invalid option kind
propagates out. -/
noncomputable def ivLoop (market_price S K T r : ℝ) (option_type : String)
    (tolerance : ℝ) : ℕ → ℝ → Except PricingError (Option ℝ)
  | 0, _ => Except.ok none
  | n + 1, sigma =>
    match (mkBlackScholes S K T r sigma option_type).price with
    | Except.error e => Except.error e
    | Except.ok price =>
      let vega := (mkBlackScholes S K T r sigma option_type).vega * 100
      let price_diff := market_price - price
      if |price_diff| < tolerance then Except.ok (some sigma)
      else if vega = 0 then Except.ok none
      else
        let sigma2 := sigma + price_diff / vega
        ivLoop market_price S K T r option_type tolerance n
          (if sigma2 ≤ 0 then 0.01 else sigma2)

/-- `OptionsAnalyzer.calculate_implied_volatility`: initial guess 0.3, default
budget 100 iterations, default tolerance `1e-5`. -/
noncomputable def calculate_implied_volatility (market_price S K T r : ℝ)
    (option_type : String := "call") (max_iterations : ℕ := 100)
    (tolerance : ℝ := 1e-5) : Except PricingError (Option ℝ) :=
  ivLoop market_price S K T r option_type tolerance max_iterations 0.3

theorem bs_price_isOk (S K T r sigma : ℝ) (kind : String)
    (hk : strLower kind = "call" ∨ strLower kind = "put") :
    (mkBlackScholes S K T r sigma kind).price =
      Except.ok (priceOf ((mkBlackScholes S K T r sigma kind).price)) := by
  rcases hk with h | h
  · have hc : (mkBlackScholes S K T r sigma kind).option_type = "call" := h
    rw [BlackScholesModel.price, if_pos hc]
    rfl
  · by_cases hc : (mkBlackScholes S K T r sigma kind).option_type = "call"
    · rw [BlackScholesModel.price, if_pos hc]
      rfl
    · have hp : (mkBlackScholes S K T r sigma kind).option_type = "put" := h
      rw [BlackScholesModel.price, if_neg hc, if_pos hp]
      rfl

/-- C5: the implied-volatility solver starts from sigma 0.3 with default
budget 100 and tolerance `1e-5`; an iteration returns the current sigma as
converged when `|market − price| < tolerance`; when the un-scaled vega is
exactly zero it returns the non-converged signal immediately — for *any*
remaining budget, i.e. without further iteration; otherwise it recurses on
the Newton update `sigma + diff/vega`, clamped to 0.01 whenever the update is
`≤ 0`; and an exhausted budget yields the non-convergence signal `none`, not
an exception. -/
theorem implied_vol_newton (market S K T r tolerance sigma : ℝ) (n : ℕ)
    (kind : String)
    (hk : strLower kind = "call" ∨ strLower kind = "put") :
    calculate_implied_volatility market S K T r kind =
      ivLoop market S K T r kind (1e-5) 100 0.3
    ∧ ivLoop market S K T r kind tolerance 0 sigma = Except.ok none
    ∧ (|market - priceOf ((mkBlackScholes S K T r sigma kind).price)| <
        tolerance →
        ivLoop market S K T r kind tolerance (n + 1) sigma =
          Except.ok (some sigma))
    ∧ (¬ |market - priceOf ((mkBlackScholes S K T r sigma kind).price)| <
          tolerance →
        (mkBlackScholes S K T r sigma kind).vega * 100 = 0 →
        ivLoop market S K T r kind tolerance (n + 1) sigma = Except.ok none)
    ∧ (¬ |market - priceOf ((mkBlackScholes S K T r sigma kind).price)| <
          tolerance →
        (mkBlackScholes S K T r sigma kind).vega * 100 ≠ 0 →
        ivLoop market S K T r kind tolerance (n + 1) sigma =
          ivLoop market S K T r kind tolerance n
            (if sigma +
                (market - priceOf ((mkBlackScholes S K T r sigma kind).price))
                  / ((mkBlackScholes S K T r sigma kind).vega * 100) ≤ 0
              then 0.01
              else sigma +
                (market - priceOf ((mkBlackScholes S K T r sigma kind).price))
                  / ((mkBlackScholes S K T r sigma kind).vega * 100))) := by
  have hp := bs_price_isOk S K T r sigma kind hk
  refine ⟨rfl, rfl, ?_, ?_, ?_⟩
  · intro h
    simp only [ivLoop]
    rw [hp]
    simp only []
    rw [if_pos h]
  · intro h hv
    simp only [ivLoop]
    rw [hp]
    simp only []
    rw [if_neg h, if_pos hv]
  · intro h hv
    simp only [ivLoop]
    rw [hp]
    simp only []
    rw [if_neg h, if_neg hv]
    simp only [priceOf_ok]

theorem implied_vol_newton_witness :
    (strLower "call" = "call" ∨ strLower "call" = "put")
    ∧ |priceOf ((mkBlackScholes (1:ℝ) 1 1 0 (3/10) "call").price) -
        priceOf ((mkBlackScholes (1:ℝ) 1 1 0 (3/10) "call").price)| < 1
    ∧ ivLoop (priceOf ((mkBlackScholes (1:ℝ) 1 1 0 (3/10) "call").price))
        1 1 1 0 "call" 1 1 (3/10) = Except.ok (some (3/10))
    ∧ ¬ |(1:ℝ) - priceOf ((mkBlackScholes (0:ℝ) 0 1 0 (3/10) "call").price)|
        < 1/2
    ∧ (mkBlackScholes (0:ℝ) 0 1 0 (3/10) "call").vega * 100 = 0
    ∧ ivLoop 1 0 0 1 0 "call" (1/2) 1 (3/10) = Except.ok none
    ∧ ¬ |(-1:ℝ) - priceOf ((mkBlackScholes (1:ℝ) 0 1 0 1 "call").price)| <
        1/2
    ∧ (mkBlackScholes (1:ℝ) 0 1 0 1 "call").vega * 100 ≠ 0
    ∧ ivLoop (-1) 1 0 1 0 "call" (1/2) 1 1 =
        ivLoop (-1) 1 0 1 0 "call" (1/2) 0
          (if 1 + ((-1) - priceOf ((mkBlackScholes (1:ℝ) 0 1 0 1
              "call").price)) / ((mkBlackScholes (1:ℝ) 0 1 0 1 "call").vega *
              100) ≤ 0
            then 0.01
            else 1 + ((-1) - priceOf ((mkBlackScholes (1:ℝ) 0 1 0 1
              "call").price)) / ((mkBlackScholes (1:ℝ) 0 1 0 1 "call").vega *
              100)) := by
  have hk : strLower "call" = "call" ∨ strLower "call" = "put" :=
    Or.inl (by decide)
  have hconv : |priceOf ((mkBlackScholes (1:ℝ) 1 1 0 (3/10) "call").price) -
      priceOf ((mkBlackScholes (1:ℝ) 1 1 0 (3/10) "call").price)| < 1 := by
    simp
  have hzero : (mkBlackScholes (0:ℝ) 0 1 0 (3/10) "call").price =
      Except.ok 0 := by
    rw [bs_price_call]
    congr 1
    simp [mkBlackScholes]
  have hfar : ¬ |(1:ℝ) -
      priceOf ((mkBlackScholes (0:ℝ) 0 1 0 (3/10) "call").price)| < 1/2 := by
    rw [hzero]
    norm_num
  have hvega0 : (mkBlackScholes (0:ℝ) 0 1 0 (3/10) "call").vega * 100 = 0 := by
    simp [BlackScholesModel.vega, mkBlackScholes]
  have hcdf : (mkBlackScholes (1:ℝ) 0 1 0 1 "call").price =
      Except.ok (normCdf ((mkBlackScholes (1:ℝ) 0 1 0 1 "call").d1)) := by
    rw [bs_price_call]
    congr 1
    simp [mkBlackScholes]
  have hfar2 : ¬ |(-1:ℝ) -
      priceOf ((mkBlackScholes (1:ℝ) 0 1 0 1 "call").price)| < 1/2 := by
    rw [hcdf, priceOf_ok]
    intro hcon
    rw [abs_lt] at hcon
    have h0 := normCdf_nonneg ((mkBlackScholes (1:ℝ) 0 1 0 1 "call").d1)
    linarith [hcon.1]
  have hvne : (mkBlackScholes (1:ℝ) 0 1 0 1 "call").vega * 100 ≠ 0 := by
    intro h0
    have hpdf := normPdf_pos ((mkBlackScholes (1:ℝ) 0 1 0 1 "call").d1)
    rw [BlackScholesModel.vega] at h0
    have hs : Real.sqrt (mkBlackScholes (1:ℝ) 0 1 0 1 "call").T = 1 := by
      show Real.sqrt 1 = 1
      exact Real.sqrt_one
    rw [hs] at h0
    have hS1 : (mkBlackScholes (1:ℝ) 0 1 0 1 "call").S = 1 := rfl
    rw [hS1] at h0
    nlinarith
  refine ⟨hk, hconv, ?_, hfar, hvega0, ?_, hfar2, hvne, ?_⟩
  · exact (implied_vol_newton
      (priceOf ((mkBlackScholes (1:ℝ) 1 1 0 (3/10) "call").price))
      1 1 1 0 1 (3/10) 0 "call" hk).2.2.1 hconv
  · exact (implied_vol_newton 1 0 0 1 0 (1/2) (3/10) 0 "call"
      hk).2.2.2.1 hfar hvega0
  · exact (implied_vol_newton (-1) 1 0 1 0 (1/2) 1 0 "call"
      hk).2.2.2.2 hfar2 hvne

/-- `numpy.linspace(a, b, n)`: `n` evenly spaced values from `a` to `b`
inclusive, the `i`-th being `a + (b - a)·i/(n - 1)`. -/
noncomputable def linspace (a b : ℝ) (n : ℕ) : List ℝ :=
  (List.range n).map (fun i : ℕ => a + (b - a) * (i : ℝ) / ((n : ℝ) - 1))

/-- `OptionsAnalyzer.sensitivity_analysis`: rejects unrecognized target
parameters up front, then builds the 50-point grid (clamping the lower
endpoint to 0.01 for the time parameter) and prices with Black-Scholes at
each grid value, substituting the grid value into the swept slot.  A
`ValueError` raised while pricing (invalid option kind) propagates. -/
noncomputable def sensitivity_analysis (S K T r sigma : ℝ)
    (option_type : String := "call") (parameter : String := "spot")
    (variation_range : ℝ := 0.2) : Except PricingError (List ℝ × List ℝ) :=
  if parameter = "spot" ∨ parameter = "volatility" ∨ parameter = "time" ∨
      parameter = "rate" then
    let base_value : ℝ :=
      if parameter = "spot" then S
      else if parameter = "volatility" then sigma
      else if parameter = "time" then T
      else r
    let param_values : List ℝ :=
      if parameter = "time" then
        linspace (max 0.01 (base_value * (1 - variation_range)))
          (base_value * (1 + variation_range)) 50
      else
        linspace (base_value * (1 - variation_range))
          (base_value * (1 + variation_range)) 50
    match param_values.mapM (fun v =>
      (mkBlackScholes (if parameter = "spot" then v else S) K
        (if parameter = "time" then v else T)
        (if parameter = "rate" then v else r)
        (if parameter = "volatility" then v else sigma)
        option_type).price) with
    | Except.error e => Except.error e
    | Except.ok prices => Except.ok (param_values, prices)
  else Except.error PricingError.invalidParameter

theorem mapM_ok_of_ok {α β : Type} {f : α → Except PricingError β}
    {g : α → β} (h : ∀ v, f v = Except.ok (g v)) :
    ∀ l : List α, l.mapM f = Except.ok (l.map g) := by
  intro l
  induction l with
  | nil => rfl
  | cons a l ih =>
    rw [List.mapM_cons, h a, ih]
    rfl

theorem sens_spot (S K T r sigma vr : ℝ) (kind : String)
    (hk : strLower kind = "call" ∨ strLower kind = "put") :
    sensitivity_analysis S K T r sigma kind "spot" vr =
      Except.ok (linspace (S * (1 - vr)) (S * (1 + vr)) 50,
        (linspace (S * (1 - vr)) (S * (1 + vr)) 50).map (fun v =>
          priceOf ((mkBlackScholes v K T r sigma kind).price))) := by
  have hmap := mapM_ok_of_ok
    (fun v => bs_price_isOk v K T r sigma kind hk)
    (linspace (S * (1 - vr)) (S * (1 + vr)) 50)
  rw [sensitivity_analysis, if_pos (Or.inl rfl)]
  simp only [(by decide : (("spot":String) = "volatility") = False),
    (by decide : (("spot":String) = "time") = False),
    (by decide : (("spot":String) = "rate") = False), if_pos rfl, if_false,
    ite_false, eq_self_iff_true, if_true]
  rw [hmap]

theorem sens_vol (S K T r sigma vr : ℝ) (kind : String)
    (hk : strLower kind = "call" ∨ strLower kind = "put") :
    sensitivity_analysis S K T r sigma kind "volatility" vr =
      Except.ok (linspace (sigma * (1 - vr)) (sigma * (1 + vr)) 50,
        (linspace (sigma * (1 - vr)) (sigma * (1 + vr)) 50).map (fun v =>
          priceOf ((mkBlackScholes S K T r v kind).price))) := by
  have hmap := mapM_ok_of_ok
    (fun v => bs_price_isOk S K T r v kind hk)
    (linspace (sigma * (1 - vr)) (sigma * (1 + vr)) 50)
  rw [sensitivity_analysis, if_pos (Or.inr (Or.inl rfl))]
  simp only [(by decide : (("volatility":String) = "spot") = False),
    (by decide : (("volatility":String) = "time") = False),
    (by decide : (("volatility":String) = "rate") = False), if_pos rfl,
    if_false, ite_false, eq_self_iff_true, if_true]
  rw [hmap]

theorem sens_time (S K T r sigma vr : ℝ) (kind : String)
    (hk : strLower kind = "call" ∨ strLower kind = "put") :
    sensitivity_analysis S K T r sigma kind "time" vr =
      Except.ok (linspace (max 0.01 (T * (1 - vr))) (T * (1 + vr)) 50,
        (linspace (max 0.01 (T * (1 - vr))) (T * (1 + vr)) 50).map (fun v =>
          priceOf ((mkBlackScholes S K v r sigma kind).price))) := by
  have hmap := mapM_ok_of_ok
    (fun v => bs_price_isOk S K v r sigma kind hk)
    (linspace (max 0.01 (T * (1 - vr))) (T * (1 + vr)) 50)
  rw [sensitivity_analysis, if_pos (Or.inr (Or.inr (Or.inl rfl)))]
  simp only [(by decide : (("time":String) = "spot") = False),
    (by decide : (("time":String) = "volatility") = False),
    (by decide : (("time":String) = "rate") = False), if_pos rfl,
    if_false, ite_false, eq_self_iff_true, if_true]
  rw [hmap]

theorem sens_rate (S K T r sigma vr : ℝ) (kind : String)
    (hk : strLower kind = "call" ∨ strLower kind = "put") :
    sensitivity_analysis S K T r sigma kind "rate" vr =
      Except.ok (linspace (r * (1 - vr)) (r * (1 + vr)) 50,
        (linspace (r * (1 - vr)) (r * (1 + vr)) 50).map (fun v =>
          priceOf ((mkBlackScholes S K T v sigma kind).price))) := by
  have hmap := mapM_ok_of_ok
    (fun v => bs_price_isOk S K T v sigma kind hk)
    (linspace (r * (1 - vr)) (r * (1 + vr)) 50)
  rw [sensitivity_analysis, if_pos (Or.inr (Or.inr (Or.inr rfl)))]
  simp only [(by decide : (("rate":String) = "spot") = False),
    (by decide : (("rate":String) = "volatility") = False),
    (by decide : (("rate":String) = "time") = False), if_pos rfl,
    if_false, ite_false, eq_self_iff_true, if_true]
  rw [hmap]

theorem linspace_spec (a b : ℝ) :
    (linspace a b 50).length = 50
    ∧ ∀ i : ℕ, i < 50 →
      (linspace a b 50)[i]? = some (a + (b - a) * i / 49) := by
  constructor
  · rw [linspace, List.length_map, List.length_range]
  · intro i hi
    rw [linspace, List.getElem?_map, List.getElem?_range hi]
    show some (a + (b - a) * (i:ℝ) / (((50:ℕ):ℝ) - 1)) = _
    norm_num

/-- C9: for every valid contract and target in {spot, volatility, time,
rate}, the sensitivity analysis succeeds with the 50-point evenly spaced grid
spanning `base·(1−range) .. base·(1+range)` (lower endpoint clamped to 0.01
when the swept parameter is time-to-maturity) paired with the Black-Scholes
price at each grid value; a `linspace _ _ 50` grid has exactly 50 entries,
the `i`-th being `lo + (hi − lo)·i/49`; and every unrecognized target name
fails with InvalidParameter. -/
theorem sensitivity_analysis_grid (S K T r sigma vr : ℝ) (kind : String)
    (hS : 0 < S) (hK : 0 < K) (hT : 0 < T) (hsigma : 0 < sigma)
    (hk : strLower kind = "call" ∨ strLower kind = "put") :
    sensitivity_analysis S K T r sigma kind "spot" vr =
      Except.ok (linspace (S * (1 - vr)) (S * (1 + vr)) 50,
        (linspace (S * (1 - vr)) (S * (1 + vr)) 50).map (fun v =>
          priceOf ((mkBlackScholes v K T r sigma kind).price)))
    ∧ sensitivity_analysis S K T r sigma kind "volatility" vr =
      Except.ok (linspace (sigma * (1 - vr)) (sigma * (1 + vr)) 50,
        (linspace (sigma * (1 - vr)) (sigma * (1 + vr)) 50).map (fun v =>
          priceOf ((mkBlackScholes S K T r v kind).price)))
    ∧ sensitivity_analysis S K T r sigma kind "time" vr =
      Except.ok (linspace (max 0.01 (T * (1 - vr))) (T * (1 + vr)) 50,
        (linspace (max 0.01 (T * (1 - vr))) (T * (1 + vr)) 50).map (fun v =>
          priceOf ((mkBlackScholes S K v r sigma kind).price)))
    ∧ sensitivity_analysis S K T r sigma kind "rate" vr =
      Except.ok (linspace (r * (1 - vr)) (r * (1 + vr)) 50,
        (linspace (r * (1 - vr)) (r * (1 + vr)) 50).map (fun v =>
          priceOf ((mkBlackScholes S K T v sigma kind).price)))
    ∧ (∀ a b : ℝ, (linspace a b 50).length = 50
        ∧ ∀ i : ℕ, i < 50 →
          (linspace a b 50)[i]? = some (a + (b - a) * i / 49))
    ∧ (∀ param : String,
        ¬(param = "spot" ∨ param = "volatility" ∨ param = "time" ∨
          param = "rate") →
        sensitivity_analysis S K T r sigma kind param vr =
          Except.error PricingError.invalidParameter) :=
  ⟨sens_spot S K T r sigma vr kind hk,
    sens_vol S K T r sigma vr kind hk,
    sens_time S K T r sigma vr kind hk,
    sens_rate S K T r sigma vr kind hk,
    fun a b => linspace_spec a b,
    fun param h => by rw [sensitivity_analysis, if_neg h]⟩

theorem sensitivity_analysis_grid_witness :
    (0:ℝ) < 100 ∧ (0:ℝ) < 1 ∧ (0:ℝ) < 1/5
    ∧ (strLower "call" = "call" ∨ strLower "call" = "put")
    ∧ sensitivity_analysis 100 100 1 (1/20) (1/5) "call" "spot" (1/5) =
      Except.ok (linspace (100 * (1 - 1/5)) (100 * (1 + 1/5)) 50,
        (linspace (100 * (1 - 1/5)) (100 * (1 + 1/5)) 50).map (fun v =>
          priceOf ((mkBlackScholes v 100 1 (1/20) (1/5) "call").price)))
    ∧ sensitivity_analysis 100 100 1 (1/20) (1/5) "call" "delta" (1/5) =
      Except.error PricingError.invalidParameter := by
  have hk : strLower "call" = "call" ∨ strLower "call" = "put" :=
    Or.inl (by decide)
  refine ⟨by norm_num, by norm_num, by norm_num, hk, ?_, ?_⟩
  · exact (sensitivity_analysis_grid 100 100 1 (1/20) (1/5) (1/5) "call"
      (by norm_num) (by norm_num) (by norm_num) (by norm_num) hk).1
  · exact (sensitivity_analysis_grid 100 100 1 (1/20) (1/5) (1/5) "call"
      (by norm_num) (by norm_num) (by norm_num) (by norm_num)
      hk).2.2.2.2.2 "delta" (by decide)

end OptiPrice
